import Mathlib

/-!
Shallow embedding of the collection engine of `kafka_exporter.go`.

The Go source is translated as follows:

* Go `map[string]int64` values are association lists `List (String × Int)`;
  reading a missing key yields the zero value `0`, exactly as in Go.
* `int64` quantities (offsets, sums, timestamps) are modelled as unbounded
  `Int`; none of the verified claims involves values near `2^63`.
* `float64` arithmetic in the rate computation is modelled exactly over `ℚ`.
* A fallible call returning `(T, error)` whose value is unused on error is
  modelled as `Option T` (`none` = error).  `client.GetOffset`, whose returned
  value the source *does* use even on the error path, is modelled as the full
  Go return pair `Int × Bool` (value, error flag).
* The per-cycle concurrency (topic worker pool, one goroutine per broker) only
  affects the interleaving of emitted samples; the embedding produces the
  samples of one admissible sequential schedule, which fixes the multiset of
  samples and the final estimator state.  Go's randomised map iteration order
  is likewise fixed by list order.  The one place where concurrency decides
  *whether* the cycle completes at all — the unbuffered `topicChannel` with
  zero workers — is modelled explicitly (`poolStep` below and the `none`
  result of `modelCollect`).
-/

/-- Go map read with zero default: reading a missing key of a
`map[string]int64` (including a read through a nil map) yields `0`. -/
def mapGet (m : List (String × Int)) (k : String) : Int :=
  match m.lookup k with
  | some v => v
  | none => 0

/-- Go map write: store or overwrite key `k` with value `v`. -/
def mapPut (m : List (String × Int)) (k : String) (v : Int) : List (String × Int) :=
  match m with
  | [] => [(k, v)]
  | (k0, v0) :: rest => if k0 = k then (k, v) :: rest else (k0, v0) :: mapPut rest k v

/-- Insert a key into a set of keys (idempotent). -/
def insertGroup (g : String) (l : List String) : List String :=
  if g ∈ l then l else g :: l

/-- State backing the consumption-rate estimator, from the package-level
variables of `kafka_exporter.go` lines 35-36:
`var lastOffset = make(map[string]map[string]int64)` and
`var topicOffset = make(map[string]int64)`.
In the source, line 682 (`lastOffset[group.GroupId] = topicOffset`) makes every
assigned group id point at the *same* global map object `topicOffset`, so the
whole reachable state is captured exactly by that one shared map plus the set
of group ids that have been assigned into `lastOffset`. -/
structure RateSt where
  topicOffset : List (String × Int)
  groupsAssigned : List String
deriving DecidableEq

/-- Read `lastOffset[g][t]` as the Go source does (lines 664, 666): if `g` was
never assigned, `lastOffset[g]` is a nil map and reading any key yields `0`;
otherwise `lastOffset[g]` aliases the shared `topicOffset` map. -/
def lastOffsetGet (s : RateSt) (g t : String) : Int :=
  if g ∈ s.groupsAssigned then mapGet s.topicOffset t else 0

/-- The rate-estimator step of `getConsumerGroupMetrics`, lines 662-683 of
`kafka_exporter.go`: given the globals `start` and the broker goroutine's
`timeDiff`, a `(group, topic)` key and the topic's aggregate committed offset
`currentOffsetSum`, compute `(consumeRate, consumeTime)` and store the new
baseline (`topicOffset[topic] = currentOffsetSum`;
`lastOffset[group.GroupId] = topicOffset`).  Rates are exact rationals in
place of `float64`. -/
def rateUpdate (s : RateSt) (start : Bool) (timeDiff : Int) (g t : String)
    (currentOffsetSum : Int) : RateSt × ℚ × ℚ :=
  let rates :=
    if start = false then
      let consume := currentOffsetSum - lastOffsetGet s g t
      if consume ≤ 0 then ((0 : ℚ), (-1 : ℚ))
      else
        let consumeRate := (consume : ℚ) / (timeDiff : ℚ)
        (consumeRate, (currentOffsetSum : ℚ) / consumeRate)
    else ((-1 : ℚ), (-2 : ℚ))
  (⟨mapPut s.topicOffset t currentOffsetSum, insertGroup g s.groupsAssigned⟩,
   rates)

/-- The source's `minx` helper (lines 508-514), used to size the topic worker
pool as `minx(len(topics)/2, e.topicWorkers)`. -/
def minx (x y : Int) : Int := if x < y then x else y

/-- State of the topic fan-out of `collect` (lines 497-531): the filtered
topics not yet sent into the unbuffered `topicChannel`, and the number of
`loopTopics` workers spawned. -/
structure PoolSt where
  queue : List String
  workers : Nat
deriving DecidableEq

/-- One step of the fan-out: a send on the unbuffered `topicChannel` completes
only by rendezvous with a worker executing `<-topicChannel`; with at least one
worker looping, the head topic is consumed, with zero workers the send never
completes and no step is possible.  Once the queue is drained the channel is
closed and the workers exit (`none` = no further step). -/
def poolStep (s : PoolSt) : Option PoolSt :=
  match s.queue with
  | [] => none
  | _ :: rest => if 1 ≤ s.workers then some ⟨rest, s.workers⟩ else none

/-- Run up to `n` steps of the fan-out, stopping when no step is possible. -/
def poolIter : Nat → PoolSt → PoolSt
  | 0, s => s
  | n + 1, s =>
    match poolStep s with
    | some s2 => poolIter n s2
    | none => s

/-- The fan-out is complete when every filtered topic has been handed to a
worker, after which `close(topicChannel)` and `wg.Wait()` let `collect`
proceed to the consumer-group scan. -/
def poolDone (s : PoolSt) : Bool := s.queue.isEmpty

theorem poolIter_drains (w : Nat) (hw : 1 ≤ w) :
    ∀ q : List String, poolDone (poolIter q.length ⟨q, w⟩) = true := by
  intro q
  induction q with
  | nil => rfl
  | cons t rest ih =>
    simp only [List.length_cons, poolIter, poolStep, hw, if_pos]
    exact ih

/-- One member of a described consumer group; `assignment` is the result of
`member.GetMemberAssignment()` flattened to its `Topics` field
(topic → assigned partitions), `none` on error. -/
structure MemberDesc where
  assignment : Option (List (String × List Int))
deriving DecidableEq

/-- One entry of `broker.DescribeGroups(...).Groups`. -/
structure GroupDesc where
  groupId : String
  members : List MemberDesc
deriving DecidableEq

/-- One `OffsetFetchResponseBlock`: a request-level error flag
(`block.Err != sarama.ErrNoError`) and the committed offset, where `-1` is
Kafka's "no offset committed" sentinel. -/
structure OffsetBlock where
  blockErr : Bool
  offset : Int
deriving DecidableEq

/-- The Cluster Gateway as seen by one collection cycle: the sarama client,
the per-broker group-protocol calls and the clock reads, each fixed for the
duration of the cycle.  `getOffset t p newest` returns the full Go pair
(value, error flag); the third argument selects `OffsetNewest` (`true`) or
`OffsetOldest` (`false`).  `refreshErr` is the result of `RefreshMetadata`,
which the source only logs.  `zkGroups` lists the ZooKeeper consumer groups
with their `FetchOffset` tables (an errored `Consumergroups()` call yields the
empty list, matching iteration over a nil slice). -/
structure ClientEnv where
  now : Int
  nowEnd : Int
  brokers : List Int
  refreshErr : Bool
  topics : Option (List String)
  partitions : String → Option (List Int)
  leader : String → Int → Option Int
  getOffset : String → Int → Bool → Int × Bool
  replicas : String → Int → Option (List Int)
  inSyncReplicas : String → Int → Option (List Int)
  zkGroups : List (String × (String → Int → Int))
  brokerOpenOk : Int → Bool
  listGroups : Int → Option (List String)
  describeGroups : Int → List String → Option (List GroupDesc)
  fetchOffset : Int → String → List (String × Int) →
    Option (List (String × List (Int × OffsetBlock)))

/-- The exporter's configuration fields read by `collect`; the two regular
expressions are abstracted to their `MatchString` predicates. -/
structure Config where
  topicFilter : String → Bool
  groupFilter : String → Bool
  offsetShowAll : Bool
  useZooKeeperLag : Bool
  topicWorkers : Int
  metadataRefreshInterval : Int

/-- The mutable exporter state surviving between cycles: the
`nextMetadataRefresh` field of `Exporter` and the package-level globals
`lastOffset`/`topicOffset` (as `RateSt`), `lastScrape` and `start`. -/
structure ExporterSt where
  nextMetadataRefresh : Int
  rateSt : RateSt
  lastScrape : Int
  start : Bool
deriving DecidableEq

/-- One typed, labelled sample handed to the metric channel.  Each constructor
is one `prometheus.MustNewConstMetric` call site of `collect`; numeric label
strings (partition numbers, formatted rate/eta/timeDiff) are carried as the
numbers themselves. -/
inductive Sample where
  | brokers (n : Nat)
  | topicPartitions (t : String) (n : Nat)
  | partitionLeader (t : String) (p : Int) (leaderId : Int)
  | topicCurrentOffset (t : String) (p : Int) (v : Int)
  | topicOldestOffset (t : String) (p : Int) (v : Int)
  | partitionReplicas (t : String) (p : Int) (n : Nat)
  | partitionInSyncReplicas (t : String) (p : Int) (n : Nat)
  | usesPreferredReplica (t : String) (p : Int) (v : Int)
  | underReplicated (t : String) (p : Int) (v : Int)
  | zkLag (g : String) (t : String) (p : Int) (v : Int)
  | cgCurrentOffset (g : String) (t : String) (p : Int) (v : Int)
  | cgLag (g : String) (t : String) (p : Int) (v : Int)
  | cgLagSumRate (g : String) (t : String) (lagSum : Int) (rate : ℚ) (eta : ℚ)
      (timeDiff : Int)
  | cgCurrentOffsetSum (g : String) (t : String) (v : Int)
  | cgMembers (g : String) (n : Nat)
deriving DecidableEq

/-- The per-partition body of `getTopicMetrics` (lines 405-493): each of
leader / newest offset / oldest offset / replicas / in-sync replicas is
fetched independently; a failed fetch is logged and only its own sample
omitted.  The two derived facts are emitted unconditionally:
`partition_leader_is_preferred` is 1 iff the leader is known and equals the
head of a known, non-empty replica list, and `under_replicated_partition` is 1
iff both replica sets are known and the in-sync count is smaller.  With
ZooKeeper lag enabled, each group's positive ZooKeeper offset yields a lag
sample against the newest-offset value. -/
def partitionFacts (env : ClientEnv) (cfg : Config) (t : String) (p : Int) :
    List Sample :=
  let leaderRes := env.leader t p
  let newestRes := env.getOffset t p true
  let oldestRes := env.getOffset t p false
  let replicasRes := env.replicas t p
  let isrRes := env.inSyncReplicas t p
  (match leaderRes with
   | some b => [Sample.partitionLeader t p b]
   | none => []) ++
  (if newestRes.2 then [] else [Sample.topicCurrentOffset t p newestRes.1]) ++
  (if oldestRes.2 then [] else [Sample.topicOldestOffset t p oldestRes.1]) ++
  (match replicasRes with
   | some r => [Sample.partitionReplicas t p r.length]
   | none => []) ++
  (match isrRes with
   | some r => [Sample.partitionInSyncReplicas t p r.length]
   | none => []) ++
  [Sample.usesPreferredReplica t p
    (match leaderRes, replicasRes with
     | some b, some (r0 :: _) => if b = r0 then 1 else 0
     | _, _ => 0)] ++
  [Sample.underReplicated t p
    (match replicasRes, isrRes with
     | some r, some i => if i.length < r.length then 1 else 0
     | _, _ => 0)] ++
  (if cfg.useZooKeeperLag then
     env.zkGroups.filterMap (fun gz =>
       let zoff := gz.2 t p
       if 0 < zoff then some (Sample.zkLag gz.1 t p (newestRes.1 - zoff))
       else none)
   else [])

/-- The topic walk over the filtered topic list, as performed by the
`getTopicMetrics` workers: per topic, fetch the partition list (a failure
skips the topic entirely), emit the partition-count sample and the
per-partition facts, record the topic's partitions in `topicsPartitions`, and
record in the offset snapshot the newest offset of every partition whose fetch
succeeded (lines 383-495, with `offset[topic]` created at line 401 and filled
at line 421).  Returns (samples, offset snapshot, topicsPartitions). -/
def walkTopics (env : ClientEnv) (cfg : Config) :
    List String →
      List Sample × List (String × List (Int × Int)) × List (String × List Int)
  | [] => ([], [], [])
  | t :: rest =>
    let tailRes := walkTopics env cfg rest
    match env.partitions t with
    | none => tailRes
    | some ps =>
      (Sample.topicPartitions t ps.length ::
         (ps.flatMap (partitionFacts env cfg t) ++ tailRes.1),
       (t, ps.filterMap fun p =>
          if (env.getOffset t p true).2 then none
          else some (p, (env.getOffset t p true).1)) :: tailRes.2.1,
       (t, ps) :: tailRes.2.2)

/-- Look up one partition's newest offset in the snapshot built by the topic
walk (`offset[topic][partition]`). -/
def snapLookup (snap : List (String × List (Int × Int))) (t : String)
    (p : Int) : Option Int :=
  match snap.lookup t with
  | none => none
  | some entries => entries.lookup p

/-- Lines 610-618: a topic of the offset-fetch response is "consumed" (and so
reported) iff at least one of its partition blocks carries an offset other
than the `-1` no-commit sentinel (the check inspects every block, errored ones
included). -/
def topicConsumed (blocks : List (Int × OffsetBlock)) : Bool :=
  blocks.any fun pb => pb.2.offset != -1

/-- The partition loop of a reported topic (lines 625-661): a block whose
request carried an error is logged and skipped entirely; otherwise its
committed offset is added to `currentOffsetSum` unless it is `-1`, the
`current_offset` sample is emitted (carrying `-1` verbatim when uncommitted),
the newest produced offset is re-fetched from the client (line 641, the value
being used whether or not that fetch reports an error), and the lag sample is
emitted — `-1` for an uncommitted partition, otherwise newest minus committed,
which is also added to `lagSum`.  Returns (samples, currentOffsetSum, lagSum). -/
def processPartitions (env : ClientEnv) (g t : String) :
    List (Int × OffsetBlock) → List Sample × Int × Int
  | [] => ([], 0, 0)
  | (p, b) :: rest =>
    let tail := processPartitions env g t rest
    if b.blockErr then tail
    else
      let newest := (env.getOffset t p true).1
      let lag := if b.offset = -1 then -1 else newest - b.offset
      (Sample.cgCurrentOffset g t p b.offset :: Sample.cgLag g t p lag :: tail.1,
       (if b.offset = -1 then 0 else b.offset) + tail.2.1,
       (if b.offset = -1 then 0 else lag) + tail.2.2)

/-- Processing of one topic of a group's offset-fetch response (lines
608-696): a topic with no committed partition is skipped; otherwise the
per-partition samples are emitted, the rate estimator runs on the aggregate
committed offset and stores the new baseline, and the `lag_sum_rate` and
`current_offset_sum` samples are emitted. -/
def processGroupTopic (env : ClientEnv) (st : RateSt) (start : Bool)
    (timeDiff : Int) (g t : String) (blocks : List (Int × OffsetBlock)) :
    List Sample × RateSt :=
  if topicConsumed blocks = false then ([], st)
  else
    let res := processPartitions env g t blocks
    let upd := rateUpdate st start timeDiff g t res.2.1
    (res.1 ++
       [Sample.cgLagSumRate g t res.2.2 upd.2.1 upd.2.2 timeDiff,
        Sample.cgCurrentOffsetSum g t res.2.1],
     upd.1)

/-- Fold `processGroupTopic` over the topics of one group's response,
threading the estimator state. -/
def processGroupTopics (env : ClientEnv) (start : Bool) (timeDiff : Int)
    (g : String) (st : RateSt) :
    List (String × List (Int × OffsetBlock)) → List Sample × RateSt
  | [] => ([], st)
  | (t, blocks) :: rest =>
    let headRes := processGroupTopic env st start timeDiff g t blocks
    let tailRes := processGroupTopics env start timeDiff g headRes.2 rest
    (headRes.1 ++ tailRes.1, tailRes.2)

/-- The assigned-only construction of the offset-fetch request (lines
584-597): the union of every live member's reported assignment; the *first*
member whose `GetMemberAssignment` fails makes `getConsumerGroupMetrics`
return, aborting the broker's whole scan (`none`). -/
def assignedPartitions : List MemberDesc → Option (List (String × Int))
  | [] => some []
  | m :: rest =>
    match m.assignment with
    | none => none
    | some ts =>
      match assignedPartitions rest with
      | none => none
      | some more =>
        some ((ts.flatMap fun tp => tp.2.map fun p => (tp.1, p)) ++ more)

/-- Build a group's offset-fetch request (lines 575-597): in show-all mode
every partition of every topic recorded in `topicsPartitions`, otherwise the
members' assignments (`none` = a member-assignment failure, which aborts the
broker scan). -/
def buildRequest (cfg : Config) (topicsPartitions : List (String × List Int))
    (gd : GroupDesc) : Option (List (String × Int)) :=
  if cfg.offsetShowAll then
    some (topicsPartitions.flatMap fun tp => tp.2.map fun p => (tp.1, p))
  else
    assignedPartitions gd.members

/-- The loop over a broker's described groups (lines 574-697): a
member-assignment failure returns from the broker goroutine, dropping the
current group's member-count sample and every later group; otherwise the
member count is emitted, and a failed `FetchOffset` skips (`continue`) only
that group's offset samples. -/
def processGroups (env : ClientEnv) (cfg : Config)
    (topicsPartitions : List (String × List Int)) (brokerId : Int)
    (start : Bool) (timeDiff : Int) (st : RateSt) :
    List GroupDesc → List Sample × RateSt
  | [] => ([], st)
  | gd :: rest =>
    match buildRequest cfg topicsPartitions gd with
    | none => ([], st)
    | some req =>
      let membersSample := Sample.cgMembers gd.groupId gd.members.length
      match env.fetchOffset brokerId gd.groupId req with
      | none =>
        let tailRes :=
          processGroups env cfg topicsPartitions brokerId start timeDiff st rest
        (membersSample :: tailRes.1, tailRes.2)
      | some blocks =>
        let headRes := processGroupTopics env start timeDiff gd.groupId st blocks
        let tailRes :=
          processGroups env cfg topicsPartitions brokerId start timeDiff
            headRes.2 rest
        (membersSample :: (headRes.1 ++ tailRes.1), tailRes.2)

/-- Model of `getConsumerGroupMetrics` for one broker (lines 533-699):
`timeDiff` is computed from the globals (lines 537-543, here inlined at its
use site); a failed `Open`, `ListGroups` or `DescribeGroups` makes the broker
contribute nothing; otherwise the discovered group ids are filtered and the
described groups processed. -/
def brokerScan (env : ClientEnv) (cfg : Config)
    (topicsPartitions : List (String × List Int)) (lastScrape : Int)
    (start : Bool) (st : RateSt) (brokerId : Int) : List Sample × RateSt :=
  if env.brokerOpenOk brokerId = false then ([], st)
  else
    match env.listGroups brokerId with
    | none => ([], st)
    | some gids =>
      match env.describeGroups brokerId (gids.filter cfg.groupFilter) with
      | none => ([], st)
      | some descs =>
        processGroups env cfg topicsPartitions brokerId start
          (if start = true then 0 else env.now - lastScrape) st descs

/-- The per-broker fan-out of lines 702-707, sequentialised (one admissible
schedule; the estimator state is mutex-guarded in the source). -/
def scanBrokers (env : ClientEnv) (cfg : Config)
    (topicsPartitions : List (String × List Int)) (lastScrape : Int)
    (start : Bool) (st : RateSt) : List Int → List Sample × RateSt
  | [] => ([], st)
  | b :: rest =>
    let headRes := brokerScan env cfg topicsPartitions lastScrape start st b
    let tailRes := scanBrokers env cfg topicsPartitions lastScrape start
      headRes.2 rest
    (headRes.1 ++ tailRes.1, tailRes.2)

/-- One whole collection cycle, `collect` (lines 348-713): emit the broker
count; run the metadata-refresh check (a refresh failure is only logged); a
failed `Topics()` call returns immediately, before the topic walk, the group
scan and the `lastScrape`/`start` update; otherwise size the worker pool as
`minx(len(topics)/2, topicWorkers)` — if that is below one while at least one
topic passes the filter, the unbuffered `topicChannel` send never completes
and the cycle never finishes (`none`) — then walk the filtered topics, scan
every broker (skipped entirely when there is no broker), and finally set
`lastScrape` and clear `start`. -/
def modelCollect (env : ClientEnv) (cfg : Config) (es : ExporterSt) :
    Option (List Sample × ExporterSt) :=
  let brokersSample := Sample.brokers env.brokers.length
  let nextRefresh :=
    if es.nextMetadataRefresh < env.now then
      env.now + cfg.metadataRefreshInterval
    else es.nextMetadataRefresh
  match env.topics with
  | none => some ([brokersSample], { es with nextMetadataRefresh := nextRefresh })
  | some topics =>
    let filtered := topics.filter cfg.topicFilter
    if 0 < filtered.length ∧ minx ((topics.length : Int) / 2) cfg.topicWorkers < 1
    then none
    else
      let walk := walkTopics env cfg filtered
      let groupRes :=
        if env.brokers.length = 0 then ([], es.rateSt)
        else scanBrokers env cfg walk.2.2 es.lastScrape es.start es.rateSt
          env.brokers
      some (brokersSample :: (walk.1 ++ groupRes.1),
            { nextMetadataRefresh := nextRefresh
              rateSt := groupRes.2
              lastScrape := env.nowEnd
              start := false })

/-- Recognise the `lag_sum_rate` samples among all emitted samples. -/
def isRateSample : Sample → Bool
  | Sample.cgLagSumRate _ _ _ _ _ _ => true
  | _ => false

/-- The error-free committed partition blocks of one response topic. -/
def committedBlocks (blocks : List (Int × OffsetBlock)) :
    List (Int × OffsetBlock) :=
  blocks.filter fun pb => !pb.2.blockErr && pb.2.offset != -1

/-- Characterisation following the spec's words: the aggregate committed
offset of a reported topic sums the committed offsets of exactly the
error-free partitions whose offset is not the `-1` sentinel. -/
def offSumCommitted (blocks : List (Int × OffsetBlock)) : Int :=
  (committedBlocks blocks).foldr (fun pb acc => pb.2.offset + acc) 0

/-- Characterisation following the spec's words: the aggregate lag of a
reported topic sums newest-minus-committed over exactly the error-free
committed partitions; uncommitted and errored partitions contribute nothing. -/
def lagSumCommitted (env : ClientEnv) (t : String)
    (blocks : List (Int × OffsetBlock)) : Int :=
  (committedBlocks blocks).foldr
    (fun pb acc => ((env.getOffset t pb.1 true).1 - pb.2.offset) + acc) 0

/-- Initial exporter state at process start: empty estimator state,
`lastScrape = 0`, `start = true`. -/
def st0 : ExporterSt := ⟨0, ⟨[], []⟩, 0, true⟩

/-- A quiet gateway: one broker, no topics, no groups, every per-item call
failing; concrete environments below override individual fields. -/
def baseEnv : ClientEnv where
  now := 100
  nowEnd := 100
  brokers := [0]
  refreshErr := false
  topics := some []
  partitions := fun _ => none
  leader := fun _ _ => none
  getOffset := fun _ _ _ => (0, true)
  replicas := fun _ _ => none
  inSyncReplicas := fun _ _ => none
  zkGroups := []
  brokerOpenOk := fun _ => true
  listGroups := fun _ => some []
  describeGroups := fun _ _ => some []
  fetchOffset := fun _ _ _ => none

/-- Default configuration: match-all filters, show-all mode, no ZooKeeper lag,
100 topic workers, 30-unit refresh interval. -/
def cfgAll : Config :=
  ⟨fun _ => true, fun _ => true, true, false, 100, 30⟩

/-- Gateway for the lag-computation scenario: two topics with one partition
each, a group `g1` with a committed offset of 5 on `("t1", 0)`, and a failing
newest-offset fetch for `("t1", 0)` that returns sarama's `-1` error value. -/
def envC5 : ClientEnv :=
  { baseEnv with
    topics := some ["t1", "t2"]
    partitions := fun _ => some [0]
    leader := fun _ _ => some 0
    getOffset := fun t _ newest =>
      if t = "t1" ∧ newest = true then (-1, true) else (7, false)
    replicas := fun _ _ => some [0]
    inSyncReplicas := fun _ _ => some [0]
    listGroups := fun _ => some ["g1"]
    describeGroups := fun _ _ => some [⟨"g1", []⟩]
    fetchOffset := fun _ _ _ => some [("t1", [(0, ⟨false, 5⟩)])] }

/-- C1: the stored baselines of distinct (group, topic) keys are NOT
independent.  Evaluating the source's storage at a concrete input: a first
update stores aggregate offset 100 under `("g2", "t")`; a later update storing
200 under `("g1", "t")` rewrites the baseline read back for `("g2", "t")` from
100 to 200, because line 682 (`lastOffset[group.GroupId] = topicOffset`) makes
every group's entry alias the one global `topicOffset` map. -/
theorem lastOffset_aliasing_bug :
    lastOffsetGet (rateUpdate ⟨[], []⟩ true 0 "g2" "t" 100).1 "g2" "t" = 100 ∧
    lastOffsetGet
      (rateUpdate (rateUpdate ⟨[], []⟩ true 0 "g2" "t" 100).1
        true 0 "g1" "t" 200).1 "g2" "t" = 200 := by
  decide

/-- Gateway for the worker-pool scenario: a cluster with a single topic that
matches the filter. -/
def envC4 : ClientEnv :=
  { baseEnv with
    topics := some ["t1"]
    partitions := fun _ => some [0] }

/-- C4: the pool size is `minx(len(topics)/2, topicWorkers)` as claimed, but
when that minimum is zero and at least one topic passes the filter the builder
does NOT terminate: with one topic and the default 100 workers the pool size
is `min(1/2, 100) = 0`, no step of the fan-out is ever possible from the
one-element queue, so the queue never drains and the cycle never completes. -/
theorem zero_workers_deadlock :
    minx ((1 : Int) / 2) 100 = 0 ∧
    (∀ n : Nat, poolDone (poolIter n ⟨["t1"], 0⟩) = false) ∧
    modelCollect envC4 cfgAll st0 = none := by
  refine ⟨by decide, ?_, by decide⟩
  intro n
  cases n with
  | zero => rfl
  | succ m => rfl

/-- C5: a partition missing from the offset snapshot because its newest-offset
fetch failed still gets a lag sample.  In `envC5` the snapshot has no entry
for `("t1", 0)` (the fetch failed during the topic walk), yet the group scan
re-fetches the newest offset at line 641, only logs the error, and emits
`lag = (-1) - 5 = -6` for the committed offset 5 — and that `-6` also enters
the topic's aggregate lag sum. -/
theorem missing_snapshot_lag_still_emitted :
    snapLookup
      (walkTopics envC5 cfgAll (["t1", "t2"].filter cfgAll.topicFilter)).2.1
      "t1" 0 = none ∧
    Sample.cgLag "g1" "t1" 0 (-6) ∈
      ((modelCollect envC5 cfgAll st0).map Prod.fst).getD [] ∧
    Sample.cgLagSumRate "g1" "t1" (-6) (-1) (-2) 0 ∈
      ((modelCollect envC5 cfgAll st0).map Prod.fst).getD [] := by
  decide

/-- C6: a non-first rate-estimator update with positive elapsed time and a
non-negative aggregate offset behaves as specified: delta ≤ 0 yields rate 0
and the -1 "not applicable" drain-time sentinel; delta > 0 yields
rate = delta / elapsed and drain-time = aggregate / rate, both non-negative;
and the rate is never negative (arithmetic modelled exactly over ℚ). -/
theorem rate_update_formula (s : RateSt) (g t : String) (elapsed current : Int)
    (hel : 0 < elapsed) (hcur : 0 ≤ current) :
    (current - lastOffsetGet s g t ≤ 0 →
       (rateUpdate s false elapsed g t current).2 = (0, -1)) ∧
    (0 < current - lastOffsetGet s g t →
       (rateUpdate s false elapsed g t current).2.1
           = ((current - lastOffsetGet s g t : Int) : ℚ) / ((elapsed : Int) : ℚ) ∧
       (rateUpdate s false elapsed g t current).2.2
           = ((current : Int) : ℚ) / (rateUpdate s false elapsed g t current).2.1 ∧
       0 < (rateUpdate s false elapsed g t current).2.1 ∧
       0 ≤ (rateUpdate s false elapsed g t current).2.2) ∧
    0 ≤ (rateUpdate s false elapsed g t current).2.1 := by
  have hmain : (rateUpdate s false elapsed g t current).2
      = if current - lastOffsetGet s g t ≤ 0 then ((0 : ℚ), (-1 : ℚ))
        else (((current - lastOffsetGet s g t : Int) : ℚ) / ((elapsed : Int) : ℚ),
              ((current : Int) : ℚ) /
                (((current - lastOffsetGet s g t : Int) : ℚ) / ((elapsed : Int) : ℚ))) := by
    simp [rateUpdate]
  by_cases hle : current - lastOffsetGet s g t ≤ 0
  · rw [hmain, if_pos hle]
    exact ⟨fun _ => rfl, fun hlt => absurd hle (not_le.2 hlt), le_refl _⟩
  · have hlt : 0 < current - lastOffsetGet s g t := lt_of_not_le hle
    have hrate : (0 : ℚ) <
        ((current - lastOffsetGet s g t : Int) : ℚ) / ((elapsed : Int) : ℚ) :=
      div_pos (by exact_mod_cast hlt) (by exact_mod_cast hel)
    rw [hmain, if_neg hle]
    exact ⟨fun h => absurd h hle,
           fun _ => ⟨rfl, rfl, hrate,
             div_nonneg (by exact_mod_cast hcur) hrate.le⟩,
           hrate.le⟩

/-- Witness for C6, the spec's worked example: baseline 1000 stored for
`("g1", "t1")`, new aggregate 1500 after 50 seconds: rate = 10 offsets/s and
drain time = 150 s. -/
theorem rate_update_formula_witness :
    (0 : Int) < 50 ∧
    (rateUpdate ⟨[("t1", 1000)], ["g1"]⟩ false 50 "g1" "t1" 1500).2.1 = 10 ∧
    (rateUpdate ⟨[("t1", 1000)], ["g1"]⟩ false 50 "g1" "t1" 1500).2.2 = 150 := by
  have h := rate_update_formula ⟨[("t1", 1000)], ["g1"]⟩ "g1" "t1" 50 1500
    (by decide) (by decide)
  have hbase : lastOffsetGet ⟨[("t1", 1000)], ["g1"]⟩ "g1" "t1" = 1000 := by
    decide
  have hlt : (0 : Int)
      < 1500 - lastOffsetGet ⟨[("t1", 1000)], ["g1"]⟩ "g1" "t1" := by
    rw [hbase]; decide
  obtain ⟨hrate, heta, _, _⟩ := h.2.1 hlt
  refine ⟨by decide, ?_, ?_⟩
  · rw [hrate, hbase]; norm_num
  · rw [heta, hrate, hbase]; norm_num

/-- Gateway whose broker hosts one empty group `g1`, with no topics. -/
def envC3ok : ClientEnv :=
  { baseEnv with
    listGroups := fun _ => some ["g1"]
    describeGroups := fun _ _ => some [⟨"g1", []⟩] }

/-- The same gateway with a failing `Topics()` call. -/
def envC3err : ClientEnv := { envC3ok with topics := none }

/-- C3 counterexample: a topic-list fetch failure does not merely omit its own
output — it aborts the whole cycle.  Under `envC3ok` the cycle emits the
broker count and the member count of group `g1`; under `envC3err`, identical
except that `Topics()` fails, the cycle stops after the broker-count sample
and the group's member count is gone with the rest of the scan. -/
theorem topics_failure_aborts_cycle_cex :
    (modelCollect envC3err cfgAll st0).map Prod.fst
      = some [Sample.brokers 1] ∧
    (modelCollect envC3ok cfgAll st0).map Prod.fst
      = some [Sample.brokers 1, Sample.cgMembers "g1" 0] := by
  decide

/-- C3 amended: inside a cycle, (i) a topic-list fetch failure aborts the
cycle right after the broker-count sample; (ii) a metadata-refresh failure is
non-fatal (flipping it leaves the cycle's result unchanged); (iii) a per-group
offset-fetch failure omits only that group's offset samples — its member count
is still emitted and the remaining groups are processed with unchanged
estimator state; (iv) a member-assignment fetch failure aborts the enclosing
broker's whole scan; (v) a partition block with a request-level error is
skipped, its siblings unaffected. -/
theorem failure_propagation_amended :
    (∀ (env : ClientEnv) (cfg : Config) (es : ExporterSt), env.topics = none →
       (modelCollect env cfg es).map Prod.fst
         = some [Sample.brokers env.brokers.length]) ∧
    (modelCollect { envC3ok with refreshErr := true } cfgAll st0
       = modelCollect envC3ok cfgAll st0) ∧
    (∀ (env : ClientEnv) (cfg : Config) (tp : List (String × List Int))
       (brokerId : Int) (start : Bool) (timeDiff : Int) (st : RateSt)
       (gd : GroupDesc) (rest : List GroupDesc) (req : List (String × Int)),
       buildRequest cfg tp gd = some req →
       env.fetchOffset brokerId gd.groupId req = none →
       processGroups env cfg tp brokerId start timeDiff st (gd :: rest)
         = (Sample.cgMembers gd.groupId gd.members.length
             :: (processGroups env cfg tp brokerId start timeDiff st rest).1,
            (processGroups env cfg tp brokerId start timeDiff st rest).2)) ∧
    (∀ (env : ClientEnv) (cfg : Config) (tp : List (String × List Int))
       (brokerId : Int) (start : Bool) (timeDiff : Int) (st : RateSt)
       (gd : GroupDesc) (rest : List GroupDesc),
       buildRequest cfg tp gd = none →
       processGroups env cfg tp brokerId start timeDiff st (gd :: rest)
         = ([], st)) ∧
    (∀ (env : ClientEnv) (g t : String) (p : Int) (b : OffsetBlock)
       (rest : List (Int × OffsetBlock)), b.blockErr = true →
       processPartitions env g t ((p, b) :: rest)
         = processPartitions env g t rest) := by
  refine ⟨?_, ?_, ?_, ?_, ?_⟩
  · intro env cfg es h
    simp [modelCollect, h]
  · decide
  · intro env cfg tp brokerId start timeDiff st gd rest req h1 h2
    simp [processGroups, h1, h2]
  · intro env cfg tp brokerId start timeDiff st gd rest h
    simp [processGroups, h]
  · intro env g t p b rest h
    simp [processPartitions, h]

/-- Witness for C3's amended claim, at concrete inputs: the aborted cycle
under a failing topic list, an errored partition block skipped without
touching its siblings, and a group whose offset fetch fails still getting its
member-count sample. -/
theorem failure_propagation_amended_witness :
    (modelCollect envC3err cfgAll st0).map Prod.fst = some [Sample.brokers 1] ∧
    processPartitions baseEnv "g1" "t1" [(0, ⟨true, 5⟩)]
      = processPartitions baseEnv "g1" "t1" [] ∧
    processGroups envC3ok cfgAll [] 0 true 0 ⟨[], []⟩ [⟨"g1", []⟩]
      = ([Sample.cgMembers "g1" 0], ⟨[], []⟩) := by
  refine ⟨failure_propagation_amended.1 envC3err cfgAll st0 rfl,
          failure_propagation_amended.2.2.2.2 baseEnv "g1" "t1" 0 ⟨true, 5⟩ [] rfl,
          ?_⟩
  have h := failure_propagation_amended.2.2.1 envC3ok cfgAll [] 0 true 0
    ⟨[], []⟩ ⟨"g1", []⟩ [] [] rfl rfl
  simpa [processGroups] using h

/-- Assigned-only configuration (`offset.show-all = false`). -/
def cfgAssigned : Config :=
  ⟨fun _ => true, fun _ => true, false, false, 100, 30⟩

/-- Gateway whose broker hosts one group `g1` with a single member whose
`GetMemberAssignment` fails. -/
def envC9 : ClientEnv :=
  { baseEnv with
    listGroups := fun _ => some ["g1"]
    describeGroups := fun _ _ => some [⟨"g1", [⟨none⟩]⟩] }

/-- C9 counterexample: in assigned-only mode, a member-assignment failure
makes the broker goroutine return before the member-count metric of the very
group being processed is emitted, so the member count is not unconditional:
the cycle's whole output is the broker-count sample. -/
theorem member_count_not_unconditional_cex :
    (modelCollect envC9 cfgAssigned st0).map Prod.fst
      = some [Sample.brokers 1] ∧
    Sample.cgMembers "g1" 1 ∉
      ((modelCollect envC9 cfgAssigned st0).map Prod.fst).getD [] := by
  decide

/-- C9 amended: in show-all mode the member count IS emitted for every
described group, whatever the offset-fetch results; in assigned-only mode it
is emitted only for groups processed before the first member-assignment
failure (which aborts the broker scan before the count). -/
theorem member_count_emission_amended (env : ClientEnv) (cfg : Config)
    (tp : List (String × List Int)) (brokerId : Int) (start : Bool)
    (timeDiff : Int) (hshow : cfg.offsetShowAll = true) :
    ∀ (descs : List GroupDesc) (st : RateSt) (gd : GroupDesc), gd ∈ descs →
      Sample.cgMembers gd.groupId gd.members.length
        ∈ (processGroups env cfg tp brokerId start timeDiff st descs).1 := by
  intro descs
  induction descs with
  | nil => intro st gd h; simp at h
  | cons d rest ih =>
    intro st gd hgd
    have hreq : buildRequest cfg tp d
        = some (tp.flatMap fun tpp => tpp.2.map fun p => (tpp.1, p)) := by
      simp [buildRequest, hshow]
    rcases List.mem_cons.1 hgd with heq | hmem2
    · subst heq
      simp only [processGroups, hreq]
      cases env.fetchOffset brokerId gd.groupId
          (tp.flatMap fun tpp => tpp.2.map fun p => (tpp.1, p)) with
      | none => exact List.mem_cons_self _ _
      | some blocks => exact List.mem_cons_self _ _
    · simp only [processGroups, hreq]
      cases env.fetchOffset brokerId d.groupId
          (tp.flatMap fun tpp => tpp.2.map fun p => (tpp.1, p)) with
      | none => exact List.mem_cons_of_mem _ (ih st gd hmem2)
      | some blocks =>
        exact List.mem_cons_of_mem _ (List.mem_append_right _ (ih _ gd hmem2))

/-- Witness for C9's amended claim: in show-all mode the single described
group's member count is emitted. -/
theorem member_count_emission_amended_witness :
    Sample.cgMembers "g1" 0
      ∈ (processGroups envC3ok cfgAll [] 0 true 0 ⟨[], []⟩ [⟨"g1", []⟩]).1 :=
  member_count_emission_amended envC3ok cfgAll [] 0 true 0 rfl
    [⟨"g1", []⟩] ⟨[], []⟩ ⟨"g1", []⟩ (by decide)

theorem processPartitions_sums (env : ClientEnv) (g t : String) :
    ∀ blocks : List (Int × OffsetBlock),
      (processPartitions env g t blocks).2.1 = offSumCommitted blocks ∧
      (processPartitions env g t blocks).2.2 = lagSumCommitted env t blocks := by
  intro blocks
  induction blocks with
  | nil => exact ⟨rfl, rfl⟩
  | cons pb rest ih =>
    obtain ⟨p, b⟩ := pb
    cases herr : b.blockErr with
    | true =>
      have hfilter : committedBlocks ((p, b) :: rest) = committedBlocks rest := by
        simp [committedBlocks, List.filter_cons, herr]
      simp only [processPartitions, herr, if_true, offSumCommitted,
        lagSumCommitted, hfilter]
      exact ih
    | false =>
      by_cases hoff : b.offset = -1
      · have hfilter : committedBlocks ((p, b) :: rest) = committedBlocks rest := by
          simp [committedBlocks, List.filter_cons, herr, hoff]
        simp only [processPartitions, herr, Bool.false_eq_true, if_false,
          offSumCommitted, lagSumCommitted, hfilter, hoff, if_pos, zero_add]
        exact ih
      · have hfilter : committedBlocks ((p, b) :: rest)
            = (p, b) :: committedBlocks rest := by
          simp [committedBlocks, List.filter_cons, herr, hoff]
        simp only [processPartitions, herr, Bool.false_eq_true, if_false,
          offSumCommitted, lagSumCommitted, hfilter, hoff, List.foldr_cons]
        exact ⟨by rw [ih.1]; rfl, by rw [ih.2]; rfl⟩

theorem processPartitions_mem (env : ClientEnv) (g t : String) :
    ∀ (blocks : List (Int × OffsetBlock)) (p : Int) (b : OffsetBlock),
      (p, b) ∈ blocks → b.blockErr = false →
      Sample.cgCurrentOffset g t p b.offset
        ∈ (processPartitions env g t blocks).1 ∧
      Sample.cgLag g t p
          (if b.offset = -1 then -1 else (env.getOffset t p true).1 - b.offset)
        ∈ (processPartitions env g t blocks).1 := by
  intro blocks
  induction blocks with
  | nil => intro p b h _; simp at h
  | cons qc rest ih =>
    intro p b hmem herr
    obtain ⟨q, c⟩ := qc
    rcases List.mem_cons.1 hmem with heq | hrest
    · cases heq
      simp [processPartitions, herr]
    · have hih := ih p b hrest herr
      cases hc : c.blockErr with
      | true => simpa [processPartitions, hc] using hih
      | false =>
        constructor
        · simp only [processPartitions, hc, Bool.false_eq_true, if_false]
          exact List.mem_cons_of_mem _ (List.mem_cons_of_mem _ hih.1)
        · simp only [processPartitions, hc, Bool.false_eq_true, if_false]
          exact List.mem_cons_of_mem _ (List.mem_cons_of_mem _ hih.2)

/-- C10: a partition block without a request-level error always gets a
`current_offset` sample carrying its committed offset verbatim — the `-1`
no-commit sentinel included — and both per-topic aggregates range over
exactly the error-free committed blocks, so uncommitted partitions are
excluded from the committed-offset sum and from the lag sum. -/
theorem uncommitted_offset_sample_and_sums (env : ClientEnv) (st : RateSt)
    (start : Bool) (timeDiff : Int) (g t : String)
    (blocks : List (Int × OffsetBlock)) (p : Int) (b : OffsetBlock)
    (hmem : (p, b) ∈ blocks) (herr : b.blockErr = false)
    (hcons : topicConsumed blocks = true) :
    Sample.cgCurrentOffset g t p b.offset
      ∈ (processGroupTopic env st start timeDiff g t blocks).1 ∧
    (processPartitions env g t blocks).2.1 = offSumCommitted blocks ∧
    (processPartitions env g t blocks).2.2 = lagSumCommitted env t blocks := by
  have hsums := processPartitions_sums env g t blocks
  have hm := processPartitions_mem env g t blocks p b hmem herr
  refine ⟨?_, hsums.1, hsums.2⟩
  simp only [processGroupTopic, hcons]
  simp only [Bool.true_eq_false, if_false, List.mem_append]
  exact Or.inl hm.1

/-- Witness for C10: two error-free blocks, one uncommitted (offset -1) and
one committed at 5; the uncommitted one still yields a `current_offset`
sample with value -1, and the aggregate offset sum is the committed 5 alone. -/
theorem uncommitted_offset_sample_and_sums_witness :
    Sample.cgCurrentOffset "g" "t" 0 (-1)
      ∈ (processGroupTopic baseEnv ⟨[], []⟩ true 0 "g" "t"
          [(0, ⟨false, -1⟩), (1, ⟨false, 5⟩)]).1 ∧
    (processPartitions baseEnv "g" "t"
        [(0, ⟨false, -1⟩), (1, ⟨false, 5⟩)]).2.1
      = offSumCommitted [(0, ⟨false, -1⟩), (1, ⟨false, 5⟩)] ∧
    offSumCommitted [(0, ⟨false, -1⟩), (1, ⟨false, 5⟩)] = 5 :=
  ⟨(uncommitted_offset_sample_and_sums baseEnv ⟨[], []⟩ true 0 "g" "t"
      [(0, ⟨false, -1⟩), (1, ⟨false, 5⟩)] 0 ⟨false, -1⟩ (by decide) rfl
      (by decide)).1,
   (uncommitted_offset_sample_and_sums baseEnv ⟨[], []⟩ true 0 "g" "t"
      [(0, ⟨false, -1⟩), (1, ⟨false, 5⟩)] 0 ⟨false, -1⟩ (by decide) rfl
      (by decide)).2.1,
   by decide⟩

/-- C8: a partition of a reported topic with no committed offset gets a lag
sample carrying the explicit `-1` sentinel — distinguishable from zero lag —
and the topic's aggregate lag sum ranges over exactly the error-free
committed blocks, excluding that partition. -/
theorem uncommitted_lag_sentinel (env : ClientEnv) (st : RateSt)
    (start : Bool) (timeDiff : Int) (g t : String)
    (blocks : List (Int × OffsetBlock)) (p : Int) (b : OffsetBlock)
    (hmem : (p, b) ∈ blocks) (herr : b.blockErr = false)
    (hoff : b.offset = -1) (hcons : topicConsumed blocks = true) :
    Sample.cgLag g t p (-1)
      ∈ (processGroupTopic env st start timeDiff g t blocks).1 ∧
    (-1 : Int) ≠ 0 ∧
    (processPartitions env g t blocks).2.2 = lagSumCommitted env t blocks := by
  have hm := (processPartitions_mem env g t blocks p b hmem herr).2
  rw [hoff] at hm
  simp only [if_pos] at hm
  refine ⟨?_, by decide, (processPartitions_sums env g t blocks).2⟩
  simp only [processGroupTopic, hcons]
  simp only [Bool.true_eq_false, if_false, List.mem_append]
  exact Or.inl hm

/-- Witness for C8: same two blocks as the C10 witness; the uncommitted
partition's lag sample is the -1 sentinel and the aggregate lag sum counts
only the committed block. -/
theorem uncommitted_lag_sentinel_witness :
    Sample.cgLag "g" "t" 0 (-1)
      ∈ (processGroupTopic baseEnv ⟨[], []⟩ true 0 "g" "t"
          [(0, ⟨false, -1⟩), (1, ⟨false, 5⟩)]).1 ∧
    (processPartitions baseEnv "g" "t"
        [(0, ⟨false, -1⟩), (1, ⟨false, 5⟩)]).2.2
      = lagSumCommitted baseEnv "t" [(0, ⟨false, -1⟩), (1, ⟨false, 5⟩)] :=
  ⟨(uncommitted_lag_sentinel baseEnv ⟨[], []⟩ true 0 "g" "t"
      [(0, ⟨false, -1⟩), (1, ⟨false, 5⟩)] 0 ⟨false, -1⟩ (by decide) rfl rfl
      (by decide)).1,
   (uncommitted_lag_sentinel baseEnv ⟨[], []⟩ true 0 "g" "t"
      [(0, ⟨false, -1⟩), (1, ⟨false, 5⟩)] 0 ⟨false, -1⟩ (by decide) rfl rfl
      (by decide)).2.2⟩

theorem rateUpdate_start_sentinels (s : RateSt) (td : Int) (g t : String)
    (c : Int) : (rateUpdate s true td g t c).2 = (-1, -2) := rfl

/-- A `lag_sum_rate` sample list invariant: every such sample in the list
carries the first-cycle sentinels rate = -1 and eta = -2. -/
def rateSentinels (l : List Sample) : Prop :=
  ∀ g t ls r ti td, Sample.cgLagSumRate g t ls r ti td ∈ l → r = -1 ∧ ti = -2

theorem rateSentinels_nil : rateSentinels [] := by
  intro g t ls r ti td h
  simp at h

theorem rateSentinels_append {l1 l2 : List Sample} (h1 : rateSentinels l1)
    (h2 : rateSentinels l2) : rateSentinels (l1 ++ l2) := by
  intro g t ls r ti td hmem
  rcases List.mem_append.1 hmem with h | h
  · exact h1 _ _ _ _ _ _ h
  · exact h2 _ _ _ _ _ _ h

theorem rateSentinels_of_no_rate {l : List Sample}
    (h : ∀ x ∈ l, isRateSample x = false) : rateSentinels l := by
  intro g t ls r ti td hmem
  have hx := h _ hmem
  simp [isRateSample] at hx

theorem rateSentinels_cons {x : Sample} {l : List Sample}
    (hx : isRateSample x = false) (hl : rateSentinels l) :
    rateSentinels (x :: l) := by
  intro g t ls r ti td hmem
  rcases List.mem_cons.1 hmem with heq | h
  · rw [← heq] at hx; simp [isRateSample] at hx
  · exact hl _ _ _ _ _ _ h

theorem partitionFacts_no_rate (env : ClientEnv) (cfg : Config) (t : String)
    (p : Int) : ∀ x ∈ partitionFacts env cfg t p, isRateSample x = false := by
  intro x hx
  unfold partitionFacts at hx
  simp only [List.mem_append] at hx
  rcases hx with ((((((h | h) | h) | h) | h) | h) | h) | h
  · cases hl : env.leader t p with
    | none => rw [hl] at h; simp at h
    | some b => rw [hl] at h; simp at h; subst h; rfl
  · by_cases hb : (env.getOffset t p true).2
    · simp [hb] at h
    · simp [hb] at h; subst h; rfl
  · by_cases hb : (env.getOffset t p false).2
    · simp [hb] at h
    · simp [hb] at h; subst h; rfl
  · cases hl : env.replicas t p with
    | none => rw [hl] at h; simp at h
    | some r => rw [hl] at h; simp at h; subst h; rfl
  · cases hl : env.inSyncReplicas t p with
    | none => rw [hl] at h; simp at h
    | some r => rw [hl] at h; simp at h; subst h; rfl
  · simp at h; subst h; rfl
  · simp at h; subst h; rfl
  · by_cases hz : cfg.useZooKeeperLag
    · simp only [hz, if_true] at h
      rcases List.mem_filterMap.1 h with ⟨gz, _, hgz⟩
      by_cases hpos : 0 < gz.2 t p
      · simp only [hpos, if_pos, Option.some.injEq] at hgz
        subst hgz; rfl
      · simp [hpos] at hgz
    · simp [hz] at h

theorem walkTopics_no_rate (env : ClientEnv) (cfg : Config) :
    ∀ (ts : List String), ∀ x ∈ (walkTopics env cfg ts).1,
      isRateSample x = false := by
  intro ts
  induction ts with
  | nil => intro x hx; simp [walkTopics] at hx
  | cons t rest ih =>
    intro x hx
    unfold walkTopics at hx
    cases hp : env.partitions t with
    | none =>
      rw [hp] at hx
      exact ih x hx
    | some ps =>
      rw [hp] at hx
      simp only [List.mem_cons, List.mem_append, List.mem_flatMap] at hx
      rcases hx with h | ⟨a, _, hpf⟩ | h
      · subst h; rfl
      · exact partitionFacts_no_rate env cfg t a x hpf
      · exact ih x h

theorem processPartitions_no_rate (env : ClientEnv) (g t : String) :
    ∀ (blocks : List (Int × OffsetBlock)),
      ∀ x ∈ (processPartitions env g t blocks).1, isRateSample x = false := by
  intro blocks
  induction blocks with
  | nil => intro x hx; simp [processPartitions] at hx
  | cons pb rest ih =>
    intro x hx
    obtain ⟨p, b⟩ := pb
    cases hb : b.blockErr with
    | true =>
      simp only [processPartitions, hb, if_true] at hx
      exact ih x hx
    | false =>
      simp only [processPartitions, hb, Bool.false_eq_true, if_false,
        List.mem_cons] at hx
      rcases hx with h | h | h
      · subst h; rfl
      · subst h; rfl
      · exact ih x h

theorem processGroupTopic_sentinels (env : ClientEnv) (st : RateSt)
    (timeDiff : Int) (g t : String) (blocks : List (Int × OffsetBlock)) :
    rateSentinels (processGroupTopic env st true timeDiff g t blocks).1 := by
  by_cases hc : topicConsumed blocks = false
  · simp only [processGroupTopic, hc, if_pos]
    exact rateSentinels_nil
  · simp only [processGroupTopic, hc, if_neg, if_false]
    refine rateSentinels_append
      (rateSentinels_of_no_rate (processPartitions_no_rate env g t blocks)) ?_
    intro g2 t2 ls r ti td hmem
    have hupd := rateUpdate_start_sentinels st timeDiff g t
      (processPartitions env g t blocks).2.1
    simp only [List.mem_cons, List.not_mem_nil, or_false,
      Sample.cgLagSumRate.injEq] at hmem
    rcases hmem with ⟨_, _, _, hr, hti, _⟩ | hmem
    · subst hr; subst hti
      exact ⟨congrArg Prod.fst hupd, congrArg Prod.snd hupd⟩
    · exact absurd hmem (by simp)

theorem processGroupTopics_sentinels (env : ClientEnv) (timeDiff : Int)
    (g : String) :
    ∀ (resp : List (String × List (Int × OffsetBlock))) (st : RateSt),
      rateSentinels (processGroupTopics env true timeDiff g st resp).1 := by
  intro resp
  induction resp with
  | nil => intro st; exact rateSentinels_nil
  | cons tb rest ih =>
    intro st
    obtain ⟨t, blocks⟩ := tb
    simp only [processGroupTopics]
    exact rateSentinels_append
      (processGroupTopic_sentinels env st timeDiff g t blocks) (ih _)

theorem processGroups_sentinels (env : ClientEnv) (cfg : Config)
    (tp : List (String × List Int)) (brokerId : Int) (timeDiff : Int) :
    ∀ (descs : List GroupDesc) (st : RateSt),
      rateSentinels (processGroups env cfg tp brokerId true timeDiff st descs).1 := by
  intro descs
  induction descs with
  | nil => intro st; exact rateSentinels_nil
  | cons gd rest ih =>
    intro st
    cases hb : buildRequest cfg tp gd with
    | none =>
      simp only [processGroups, hb]
      exact rateSentinels_nil
    | some req =>
      cases hf : env.fetchOffset brokerId gd.groupId req with
      | none =>
        simp only [processGroups, hb, hf]
        exact rateSentinels_cons rfl (ih st)
      | some blocks =>
        simp only [processGroups, hb, hf]
        exact rateSentinels_cons rfl
          (rateSentinels_append
            (processGroupTopics_sentinels env timeDiff gd.groupId blocks st)
            (ih _))

theorem brokerScan_sentinels (env : ClientEnv) (cfg : Config)
    (tp : List (String × List Int)) (lastScrape : Int) (st : RateSt)
    (brokerId : Int) :
    rateSentinels (brokerScan env cfg tp lastScrape true st brokerId).1 := by
  unfold brokerScan
  split
  · exact rateSentinels_nil
  · split
    · exact rateSentinels_nil
    · split
      · exact rateSentinels_nil
      · exact processGroups_sentinels env cfg tp brokerId _ _ st

theorem scanBrokers_sentinels (env : ClientEnv) (cfg : Config)
    (tp : List (String × List Int)) (lastScrape : Int) :
    ∀ (bs : List Int) (st : RateSt),
      rateSentinels (scanBrokers env cfg tp lastScrape true st bs).1 := by
  intro bs
  induction bs with
  | nil => intro st; exact rateSentinels_nil
  | cons b rest ih =>
    intro st
    simp only [scanBrokers]
    exact rateSentinels_append
      (brokerScan_sentinels env cfg tp lastScrape st b) (ih _)

/-- C7: during the very first collection cycle after process start
(`start = true`, no prior scrape timestamp), every `lag_sum_rate` sample
emitted anywhere in the cycle carries the explicit "unavailable" sentinels
rate = -1 and eta = -2 — in particular the rate is not zero and no
delta-based numeric value is reported. -/
theorem first_cycle_rate_sentinel (env : ClientEnv) (cfg : Config)
    (es : ExporterSt) (out : List Sample) (es2 : ExporterSt)
    (hstart : es.start = true)
    (hrun : modelCollect env cfg es = some (out, es2)) :
    ∀ g t ls r ti td, Sample.cgLagSumRate g t ls r ti td ∈ out →
      r = -1 ∧ ti = -2 ∧ r ≠ 0 := by
  have hsent : rateSentinels out := by
    unfold modelCollect at hrun
    cases ht : env.topics with
    | none =>
      rw [ht] at hrun
      simp only [Option.some.injEq, Prod.mk.injEq] at hrun
      rw [← hrun.1]
      exact rateSentinels_cons rfl rateSentinels_nil
    | some topics =>
      rw [ht] at hrun
      by_cases hdl : 0 < (topics.filter cfg.topicFilter).length ∧
          minx ((topics.length : Int) / 2) cfg.topicWorkers < 1
      · simp only [hdl, if_pos] at hrun
        exact absurd hrun (by simp)
      · simp only [hdl, if_neg, if_false, Option.some.injEq,
          Prod.mk.injEq] at hrun
        rw [← hrun.1]
        refine rateSentinels_cons rfl
          (rateSentinels_append
            (rateSentinels_of_no_rate (walkTopics_no_rate env cfg _)) ?_)
        by_cases hbk : env.brokers.length = 0
        · simp only [hbk, if_pos]
          exact rateSentinels_nil
        · simp only [hbk, if_neg, if_false]
          rw [hstart]
          exact scanBrokers_sentinels env cfg _ es.lastScrape env.brokers
            es.rateSt
  intro g t ls r ti td hmem
  have h := hsent g t ls r ti td hmem
  exact ⟨h.1, h.2, by rw [h.1]; norm_num⟩

/-- Witness for C7: a concrete first cycle (the `envC5` gateway from the
initial state) emits a `lag_sum_rate` sample, and its rate/eta are the
sentinels. -/
theorem first_cycle_rate_sentinel_witness :
    Sample.cgLagSumRate "g1" "t1" (-6) (-1) (-2) 0
      ∈ ((modelCollect envC5 cfgAll st0).getD ([], st0)).1 ∧
    ((-1 : ℚ)) ≠ 0 := by
  have hrun : modelCollect envC5 cfgAll st0
      = some (((modelCollect envC5 cfgAll st0).getD ([], st0)).1,
              ((modelCollect envC5 cfgAll st0).getD ([], st0)).2) := by decide
  have hmem : Sample.cgLagSumRate "g1" "t1" (-6) (-1) (-2) 0
      ∈ ((modelCollect envC5 cfgAll st0).getD ([], st0)).1 := by decide
  exact ⟨hmem, (first_cycle_rate_sentinel envC5 cfgAll st0 _ _ rfl hrun
    "g1" "t1" (-6) (-1) (-2) 0 hmem).2.2⟩
